import Mathlib

/-!
Verification of the authentication negotiation core (`src/v2/auth.rs`) of
dkregistry-rs: WWW-Authenticate challenge parsing, token-endpoint URL
construction, the bearer token response conversion and validation, the
token masking step, and the `authenticate` / `is_auth` client flow.

Rust `String` values are modeled by their character sequences
(`List Char`); wherever the Rust code indexes by UTF-8 bytes
(`String::replace_range`), byte positions are recovered through
`Char.utf8Size`.
-/

/-- Rust `String` / `&str`, modeled as its sequence of characters. -/
abbrev Chars := List Char

/-- Equality of `Except` values is decidable when it is on both sides;
this lets concrete runs of the fallible operations be checked by
`decide`. -/
instance {ε α : Type} [DecidableEq ε] [DecidableEq α] :
    DecidableEq (Except ε α) := fun x y =>
  match x, y with
  | .error a, .error b => decidable_of_iff (a = b) (by simp)
  | .ok a, .ok b => decidable_of_iff (a = b) (by simp)
  | .error _, .ok _ => isFalse (by simp)
  | .ok _, .error _ => isFalse (by simp)

/-! ## Character classes of the challenge-header regex

The regex in `auth.rs` is
`\s*((?P<method>[A-Z][a-z]+)\s*)?(\s*(?P<key>[a-z]+)\s*=\s*"(?P<value>[^"]+)"\s*)`.
`[A-Z]`, `[a-z]` and `[^"]` are exact; `\s` is modeled by its ASCII
fragment (space, tab, newline, carriage return, vertical tab, form feed),
which is the fragment exercised by HTTP header values. -/

/-- The regex character class `\s` (ASCII fragment). -/
def isSpaceChar (ch : Char) : Bool :=
  ch.toNat = 32 || ch.toNat = 9 || ch.toNat = 10 ||
  ch.toNat = 13 || ch.toNat = 11 || ch.toNat = 12

/-- The regex character class `[A-Z]`. -/
def isUpperAlpha (ch : Char) : Bool :=
  65 ≤ ch.toNat && ch.toNat ≤ 90

/-- The regex character class `[a-z]`. -/
def isLowerAlpha (ch : Char) : Bool :=
  97 ≤ ch.toNat && ch.toNat ≤ 122

/-! ## Challenge parser (auth.rs lines 136-218)

`Regex::captures_iter` over the header yields successive non-overlapping
leftmost matches of the pattern above; each match captures an optional
`method`, a `key` and a `value`.  The pattern is embedded directly: at a
given start position the engine skips `\s*`, then (preferring the longer
alternative) tries the optional method group `[A-Z][a-z]+` with a
backtracking-shortened lowercase run, and in every case requires one
`key="value"` pair.  On failure the search restarts one character
later. -/

/-- One capture of the header regex: the first match is the only one whose
`method` group can be set (auth.rs comment at line 162). -/
structure Capture where
  method : Option Chars
  key : Chars
  value : Chars
deriving DecidableEq, Repr

/-- Match the mandatory part of the regex,
`\s*(?P<key>[a-z]+)\s*=\s*"(?P<value>[^"]+)"\s*`, at the start of `s`.
Returns the key, the value, and the remainder of the input after the
match (the trailing `\s*` is consumed greedily).  The greedy runs
`[a-z]+` and `[^"]+` never need backtracking: shortening them exposes a
character that cannot match the next regex item. -/
def matchPair (s : Chars) : Option (Chars × Chars × Chars) :=
  let s1 := s.dropWhile isSpaceChar
  let key := s1.takeWhile isLowerAlpha
  if key.isEmpty then none
  else
    match (s1.dropWhile isLowerAlpha).dropWhile isSpaceChar with
    | '=' :: s3 =>
      match s3.dropWhile isSpaceChar with
      | '"' :: s5 =>
        let v := s5.takeWhile (fun ch => ch != '"')
        if v.isEmpty then none
        else
          match s5.dropWhile (fun ch => ch != '"') with
          | '"' :: s6 => some (key, v, s6.dropWhile isSpaceChar)
          | _ => none
      | _ => none
    | _ => none

/-- Backtracking over the method group `((?P<method>[A-Z][a-z]+)\s*)?`:
`ch` is the `[A-Z]` character, `low` the maximal `[a-z]*` run after it,
`rest` the input after that run.  The engine first takes the whole run as
the method (greedy `[a-z]+`), and on failure of the rest of the pattern
retries with a run shortened from the right, down to length one. -/
def tryMethodAux (ch : Char) (low rest : Chars) : Nat → Option (Capture × Chars)
  | 0 => none
  | k + 1 =>
    match matchPair (low.drop (k + 1) ++ rest) with
    | some kvr => some (⟨some (ch :: low.take (k + 1)), kvr.1, kvr.2.1⟩, kvr.2.2)
    | none => tryMethodAux ch low rest k

/-- Match the whole regex at the start of `s1`, where the leading `\s*`
has already been skipped. -/
def matchAtCore (s1 : Chars) : Option (Capture × Chars) :=
  match s1 with
  | [] => none
  | ch :: cs =>
    if isUpperAlpha ch then
      match tryMethodAux ch (cs.takeWhile isLowerAlpha) (cs.dropWhile isLowerAlpha)
          (cs.takeWhile isLowerAlpha).length with
      | some res => some res
      | none =>
        (matchPair s1).map fun kvr => (⟨none, kvr.1, kvr.2.1⟩, kvr.2.2)
    else
      (matchPair s1).map fun kvr => (⟨none, kvr.1, kvr.2.1⟩, kvr.2.2)

/-- Match the whole regex at the start of `s`. -/
def matchAt (s : Chars) : Option (Capture × Chars) :=
  matchAtCore (s.dropWhile isSpaceChar)

/-- `captures_iter`: successive leftmost matches.  On failure at a
position the search restarts one character later; the fuel (instantiated
with the input length by `scan`) bounds the recursion. -/
def scanAux : Nat → Chars → List Capture
  | 0, _ => []
  | _ + 1, [] => []
  | fuel + 1, ch :: cs =>
    match matchAt (ch :: cs) with
    | some (cap, rest) => cap :: scanAux fuel rest
    | none => scanAux fuel cs

/-- All captures of the header regex over `s`
(`re.captures_iter(&header).collect::<Vec<_>>()`, auth.rs line 165). -/
def scan (s : Chars) : List Capture := scanAux s.length s

/-! ## Error model -/

/-- `WwwHeaderParseError` (auth.rs lines 149-155). -/
inductive WwwHeaderParseError where
  | invalidValue
  | fieldMethodMissing
deriving DecidableEq, Repr

/-- Errors of the serde deserialization step (auth.rs lines 201-208): the
derived deserializer of the challenge enum rejects an unknown variant
tag, a duplicated known field, and a missing required field; unknown
fields are only recorded by `serde_ignored`, not rejected. -/
inductive SerdeError where
  | unknownVariant (tag : Chars)
  | duplicateField (name : String)
  | missingField (name : String)
deriving DecidableEq, Repr

/-- Modelled from the spec: `crate::errors::Error` lives outside the shown
source (`src/errors.rs` is not part of `src/`); the constructors used by
`v2/auth.rs` follow the error taxonomy of the spec (section 7), with
transport and URL failures collapsed to one constructor each. -/
inductive Error where
  | unexpectedHttpStatus (status : Nat)
  | invalidAuthToken (token : Chars)
  | missingAuthHeader (name : String)
  | noCredentials
  | headerParse (e : WwwHeaderParseError)
  | serde (e : SerdeError)
  | malformedUrl
  | transport
deriving DecidableEq, Repr

/-! ## Challenge data model (auth.rs lines 129-134, 221-261) -/

/-- `WwwAuthenticateHeaderContentBearer` (auth.rs lines 222-227). -/
structure WwwAuthenticateHeaderContentBearer where
  realm : Chars
  service : Option Chars
  scope : Option Chars
deriving DecidableEq, Repr

/-- `WwwAuthenticateHeaderContentBasic` (auth.rs lines 258-261). -/
structure WwwAuthenticateHeaderContentBasic where
  realm : Chars
deriving DecidableEq, Repr

/-- `WwwAuthenticateHeaderContent` (auth.rs lines 130-134). -/
inductive WwwAuthenticateHeaderContent where
  | bearer (b : WwwAuthenticateHeaderContentBearer)
  | basic (b : WwwAuthenticateHeaderContentBasic)
deriving DecidableEq, Repr

/-- The serde-derived deserializer of `WwwAuthenticateHeaderContentBearer`
applied to the key/value pairs in order: a known field seen twice is a
`duplicateField` error, an unknown field is skipped (`serde_ignored`
records it without failing), and `realm` must have been seen when the
pairs are exhausted. -/
def deserBearerAux :
    List (Chars × Chars) → Option Chars → Option Chars → Option Chars →
    Except SerdeError WwwAuthenticateHeaderContentBearer
  | [], none, _, _ => .error (.missingField "realm")
  | [], some r, sv, sc => .ok ⟨r, sv, sc⟩
  | (k, v) :: rest, r, sv, sc =>
    if k = "realm".data then
      match r with
      | some _ => .error (.duplicateField "realm")
      | none => deserBearerAux rest (some v) sv sc
    else if k = "service".data then
      match sv with
      | some _ => .error (.duplicateField "service")
      | none => deserBearerAux rest r (some v) sc
    else if k = "scope".data then
      match sc with
      | some _ => .error (.duplicateField "scope")
      | none => deserBearerAux rest r sv (some v)
    else deserBearerAux rest r sv sc

/-- Deserialize the Bearer challenge shape from the captured pairs. -/
def deserBearer (pairs : List (Chars × Chars)) :
    Except SerdeError WwwAuthenticateHeaderContentBearer :=
  deserBearerAux pairs none none none

/-- The serde-derived deserializer of `WwwAuthenticateHeaderContentBasic`:
as for the Bearer shape, with `realm` the only known field. -/
def deserBasicAux :
    List (Chars × Chars) → Option Chars →
    Except SerdeError WwwAuthenticateHeaderContentBasic
  | [], none => .error (.missingField "realm")
  | [], some r => .ok ⟨r⟩
  | (k, v) :: rest, r =>
    if k = "realm".data then
      match r with
      | some _ => .error (.duplicateField "realm")
      | none => deserBasicAux rest (some v)
    else deserBasicAux rest r

/-- Deserialize the Basic challenge shape from the captured pairs. -/
def deserBasic (pairs : List (Chars × Chars)) :
    Except SerdeError WwwAuthenticateHeaderContentBasic :=
  deserBasicAux pairs none

/-- `WwwAuthenticateHeaderContent::from_www_authentication_header`
(auth.rs lines 159-218): collect all captures; the method comes from the
first capture (`InvalidValue` if there is none, `FieldMethodMissing` if
its method group is unset); every capture contributes its key/value pair;
the pairs are deserialized into the variant named by the method.  The
intermediate JSON text built by the Rust code is a faithful transport of
the method and the pairs (serde_json string round-trip), so it is elided
here. -/
def from_www_authentication_header (header : Chars) :
    Except Error WwwAuthenticateHeaderContent :=
  let captures := scan header
  match captures with
  | [] => .error (.headerParse .invalidValue)
  | c0 :: _ =>
    match c0.method with
    | none => .error (.headerParse .fieldMethodMissing)
    | some m =>
      let pairs := captures.map fun cp => (cp.key, cp.value)
      if m = "Bearer".data then
        match deserBearer pairs with
        | .ok b => .ok (.bearer b)
        | .error e => .error (.serde e)
      else if m = "Basic".data then
        match deserBasic pairs with
        | .ok b => .ok (.basic b)
        | .error e => .error (.serde e)
      else .error (.serde (.unknownVariant m))

/-! ## Token endpoint URL (auth.rs lines 229-255) -/

/-- `WwwAuthenticateHeaderContentBearer::auth_ep` (auth.rs lines 230-254),
including the `if i > 1` separator condition of the scope fold exactly as
written in the source. -/
def auth_ep (b : WwwAuthenticateHeaderContentBearer) (scopes : List Chars) : Chars :=
  let service : Chars :=
    match b.service with
    | some sv => "?service=".data ++ sv
    | none => []
  let scope : Chars :=
    (scopes.enum).foldl
      (fun acc is =>
        acc ++ (if is.1 > 1 then "&".data else []) ++ "scope=".data ++ is.2)
      []
  let scope_prefix : Chars :=
    if scopes.isEmpty then []
    else if service.isEmpty then "?".data
    else "&".data
  b.realm ++ service ++ scope_prefix ++ scope

/-! ## Bearer credential (auth.rs lines 25-68) -/

/-- `BearerIntermediate` (auth.rs lines 26-38). -/
structure BearerIntermediate where
  token : Option Chars
  access_token : Option Chars
  expires_in : Option Nat
  issued_at : Option Chars
  refresh_token : Option Chars
deriving DecidableEq, Repr

/-- `BearerAuth` (auth.rs lines 40-51). -/
structure BearerAuth where
  token : Chars
  expires_in : Option Nat
  issued_at : Option Chars
  refresh_token : Option Chars
deriving DecidableEq, Repr

/-- `TryFrom<BearerIntermediate> for BearerAuth` (auth.rs lines 53-68):
`value.token.or(value.access_token).ok_or("Missing 'token' field")`. -/
def bearerAuthTryFrom (value : BearerIntermediate) : Except String BearerAuth :=
  match value.token.or value.access_token with
  | some token =>
    .ok ⟨token, value.expires_in, value.issued_at, value.refresh_token⟩
  | none => .error "Missing 'token' field"

/-! ## Token validation and masking (auth.rs lines 104-118)

`String::replace_range` takes a *byte* range, asserts that both endpoints
are character boundaries (it aborts otherwise), and splices in the
replacement. -/

/-- Split a character sequence at UTF-8 byte position `n`; `none` when `n`
is not a character boundary or exceeds the byte length. -/
def splitAtByte : Chars → Nat → Option (Chars × Chars)
  | l, 0 => some ([], l)
  | [], _ + 1 => none
  | ch :: cs, n + 1 =>
    if ch.utf8Size ≤ n + 1 then
      match splitAtByte cs (n + 1 - ch.utf8Size) with
      | some (a, b) => some (ch :: a, b)
      | none => none
    else none

/-- `String::replace_range(start..stop, repl)` for `start ≤ stop` (the
only way it is called in auth.rs): `none` models the panic on a range
endpoint that is not a character boundary of the string. -/
def replaceRange (l : Chars) (start stop : Nat) (repl : Chars) : Option Chars :=
  match splitAtByte l start with
  | none => none
  | some (pre, rest) =>
    match splitAtByte rest (stop - start) with
    | none => none
    | some (_, post) => some (pre ++ repl ++ post)

/-- Outcome of the post-response part of the bearer handshake: a
credential together with the masked diagnostic token, an error, or a
panic of `replace_range`. -/
inductive TokenOutcome where
  | ok (auth : BearerAuth) (maskedToken : Chars)
  | err (e : Error)
  | panicked
deriving DecidableEq, Repr

/-- The masking block of `BearerAuth::try_from_header_content` (auth.rs
lines 109-114): `mask_start`/`mask_end` are computed from
`token.chars().count()` but passed to `replace_range` as byte indices,
with `"*".repeat(mask_end - mask_start)` as the replacement. -/
def maskToken (token : Chars) : Option Chars :=
  let chars_count := token.length
  let mask_start := min 1 (chars_count - 1)
  let mask_end := max (chars_count - 1) 1
  replaceRange token mask_start mask_end
    (List.replicate (mask_end - mask_start) '*')

/-- The token validation and masking steps of
`BearerAuth::try_from_header_content` (auth.rs lines 104-118), applied to
the deserialized response: reject `"unauthenticated"` and `""`, then mask
a clone of the token for the diagnostic log.  The returned credential
carries the unmasked token. -/
def processToken (bearer_auth : BearerAuth) : TokenOutcome :=
  if bearer_auth.token = "unauthenticated".data ∨ bearer_auth.token = [] then
    .err (.invalidAuthToken bearer_auth.token)
  else
    match maskToken bearer_auth.token with
    | some masked => .ok bearer_auth masked
    | none => .panicked

/-! ## Client flow (auth.rs lines 13-23, 122-127, 263-346) -/

/-- `BasicAuth` (auth.rs lines 123-127). -/
structure BasicAuth where
  user : Chars
  password : Option Chars
deriving DecidableEq, Repr

/-- `Auth` (auth.rs lines 7-11). -/
inductive Auth where
  | bearer (b : BearerAuth)
  | basic (b : BasicAuth)
deriving DecidableEq, Repr

/-- The `Client` value as used by `v2/auth.rs`: the fields this file
reads or writes (`auth`, `credentials`, `base_url`) plus `rest`, which
stands for every other field carried along by the
`Client { auth: .., ..self }` struct-update syntax. -/
structure Client (ρ : Type) where
  auth : Option Auth
  credentials : Option (Chars × Chars)
  base_url : Chars
  rest : ρ
deriving DecidableEq, Repr

/-- `Client::authenticate` (auth.rs lines 283-322).  The two network
round-trips are abstracted as function arguments: `fetchHeader` for
`get_www_authentication_header` and `bearerHandshake` for the network and
response processing part of `BearerAuth::try_from_header_content`, which
the code calls with the probe client, the saved credentials and the
parsed bearer challenge.  The probe client strips `auth`
(`Client { auth: None, ..self.clone() }`) and on success the original
client is returned with only its `auth` field replaced
(`self.auth = Some(auth); Ok(self)`). -/
def authenticate {ρ : Type}
    (fetchHeader : Client ρ → Except Error Chars)
    (bearerHandshake :
      Client ρ → Option (Chars × Chars) → WwwAuthenticateHeaderContentBearer →
      Except Error BearerAuth)
    (c : Client ρ) : Except Error (Client ρ) :=
  let credentials := c.credentials
  let probe : Client ρ := { c with auth := none }
  match fetchHeader probe with
  | .error e => .error e
  | .ok hdr =>
    match from_www_authentication_header hdr with
    | .error e => .error e
    | .ok (.basic _) =>
      match credentials with
      | some (user, password) =>
        .ok { c with auth := some (.basic ⟨user, some password⟩) }
      | none => .error .noCredentials
    | .ok (.bearer b) =>
      match bearerHandshake probe credentials b with
      | .error e => .error e
      | .ok bearer_auth =>
        .ok { c with auth := some (.bearer bearer_auth) }

/-- `Client::is_auth` (auth.rs lines 327-345): the response is classified
by its status code alone; the body and headers of the response and the
client itself (the method takes `&self`) are not consulted. -/
def is_auth {ρ : Type} (_c : Client ρ) (status : Nat) (_body : Chars)
    (_headers : List (Chars × Chars)) : Except Error Bool :=
  if status = 200 then .ok true
  else if status = 401 then .ok false
  else .error (.unexpectedHttpStatus status)

/-! ## Canonical well-formed headers

These render the header shapes named by the spec:
`renderPair k v t` is `k="v"` followed by `t`, `basicHeader r` is
`Basic realm="r"`, and `bearerHeader r s c` is
`Bearer realm="r", service="s", scope="c"`. -/

/-- Render one `key="value"` segment followed by the remainder `t`. -/
def renderPair (k v t : Chars) : Chars := k ++ '=' :: '"' :: (v ++ '"' :: t)

/-- The header `Basic realm="<realm>"`. -/
def basicHeader (realm : Chars) : Chars :=
  'B' :: ("asic".data ++ (' ' :: renderPair "realm".data realm []))

/-- The header `Bearer realm="<realm>", service="<service>", scope="<scope>"`. -/
def bearerHeader (realm service scope : Chars) : Chars :=
  'B' :: ("earer".data ++ (' ' :: renderPair "realm".data realm
    (',' :: ' ' :: renderPair "service".data service
      (',' :: ' ' :: renderPair "scope".data scope []))))

/-- The header `Bearer realm="<va>", realm="<vb>"`: an otherwise valid
challenge whose known key `realm` is repeated. -/
def bearerDupHeader (va vb : Chars) : Chars :=
  'B' :: ("earer".data ++ (' ' :: renderPair "realm".data va
    (',' :: ' ' :: renderPair "realm".data vb [])))

/-- The header `Bearer realm="<va>", foo="<vb>", foo="<vb>"`: an otherwise
valid challenge in which the unknown key `foo` is repeated. -/
def bearerUnknownDupHeader (va vb : Chars) : Chars :=
  'B' :: ("earer".data ++ (' ' :: renderPair "realm".data va
    (',' :: ' ' :: renderPair "foo".data vb
      (',' :: ' ' :: renderPair "foo".data vb []))))


/-! ## Scanner lemmas -/

theorem lower_not_space {ch : Char} (h : isLowerAlpha ch = true) :
    isSpaceChar ch = false := by
  simp only [isLowerAlpha, Bool.and_eq_true, decide_eq_true_eq] at h
  simp only [isSpaceChar, Bool.or_eq_false_iff, decide_eq_false_iff_not]
  omega

theorem lower_not_upper {ch : Char} (h : isLowerAlpha ch = true) :
    isUpperAlpha ch = false := by
  simp only [isLowerAlpha, Bool.and_eq_true, decide_eq_true_eq] at h
  simp only [isUpperAlpha, Bool.and_eq_false_iff, decide_eq_false_iff_not]
  omega

theorem upper_not_space {ch : Char} (h : isUpperAlpha ch = true) :
    isSpaceChar ch = false := by
  simp only [isUpperAlpha, Bool.and_eq_true, decide_eq_true_eq] at h
  simp only [isSpaceChar, Bool.or_eq_false_iff, decide_eq_false_iff_not]
  omega

theorem dropWhile_length_le (p : Char → Bool) (l : Chars) :
    (l.dropWhile p).length ≤ l.length := by
  conv_rhs => rw [← List.takeWhile_append_dropWhile p l]
  rw [List.length_append]
  exact Nat.le_add_left _ _

theorem matchPair_rest_length {t : Chars} {kvr : Chars × Chars × Chars}
    (h : matchPair t = some kvr) : kvr.2.2.length < t.length := by
  simp only [matchPair] at h
  split at h
  · exact absurd h (by simp)
  · split at h
    case h_2 => exact absurd h (by simp)
    case h_1 s3 heq1 =>
      split at h
      case h_2 => exact absurd h (by simp)
      case h_1 s5 heq2 =>
        split at h
        · exact absurd h (by simp)
        · split at h
          case h_2 => exact absurd h (by simp)
          case h_1 s6 heq3 =>
            have e1 : kvr.2.2 = s6.dropWhile isSpaceChar := by
              cases h; rfl
            have l0 : (t.dropWhile isSpaceChar).length ≤ t.length :=
              dropWhile_length_le _ _
            have l1 :
                ((t.dropWhile isSpaceChar).dropWhile isLowerAlpha).length ≤
                  (t.dropWhile isSpaceChar).length := dropWhile_length_le _ _
            have l2 := congrArg List.length heq1
            have l2' :
                (((t.dropWhile isSpaceChar).dropWhile isLowerAlpha).dropWhile
                  isSpaceChar).length ≤
                ((t.dropWhile isSpaceChar).dropWhile isLowerAlpha).length :=
              dropWhile_length_le _ _
            have l3 := congrArg List.length heq2
            have l3' : (s3.dropWhile isSpaceChar).length ≤ s3.length :=
              dropWhile_length_le _ _
            have l4 := congrArg List.length heq3
            have l4' :
                (s5.dropWhile (fun ch => ch != '"')).length ≤ s5.length :=
              dropWhile_length_le _ _
            have l5 : (s6.dropWhile isSpaceChar).length ≤ s6.length :=
              dropWhile_length_le _ _
            simp only [List.length_cons] at l2 l3 l4
            rw [e1]
            omega

theorem tryMethodAux_rest_length {ch : Char} {low rest : Chars} {n : Nat}
    {capr : Capture × Chars} (h : tryMethodAux ch low rest n = some capr) :
    capr.2.length < low.length + rest.length + 1 := by
  induction n with
  | zero => simp [tryMethodAux] at h
  | succ k ih =>
    rw [tryMethodAux] at h
    split at h
    case h_1 kvr heq =>
      have e : capr.2 = kvr.2.2 := by cases h; rfl
      have hlen := matchPair_rest_length heq
      have hlen2 : (low.drop (k + 1) ++ rest).length ≤ low.length + rest.length := by
        rw [List.length_append, List.length_drop]
        omega
      rw [e]
      omega
    case h_2 => exact ih h

theorem matchAt_rest_length {s : Chars} {capr : Capture × Chars}
    (h : matchAt s = some capr) : capr.2.length < s.length := by
  rw [matchAt, matchAtCore.eq_def] at h
  have hdl : (s.dropWhile isSpaceChar).length ≤ s.length := dropWhile_length_le _ _
  split at h
  · exact absurd h (by simp)
  case h_2 ch cs heq =>
    have hcs : cs.length + 1 ≤ s.length := by
      have := congrArg List.length heq
      simp only [List.length_cons] at this
      omega
    split at h
    · split at h
      case h_1 res hres =>
        have e : res = capr := by cases h; rfl
        subst e
        have := tryMethodAux_rest_length hres
        have hsum :
            (cs.takeWhile isLowerAlpha).length +
              (cs.dropWhile isLowerAlpha).length = cs.length := by
          conv_rhs => rw [← List.takeWhile_append_dropWhile isLowerAlpha cs]
          rw [List.length_append]
        omega
      case h_2 =>
        rw [Option.map_eq_some'] at h
        obtain ⟨kvr, hkvr, hcap⟩ := h
        have := matchPair_rest_length hkvr
        have e : capr.2 = kvr.2.2 := by rw [← hcap]
        rw [e]
        simp only [List.length_cons] at this
        omega
    · rw [Option.map_eq_some'] at h
      obtain ⟨kvr, hkvr, hcap⟩ := h
      have := matchPair_rest_length hkvr
      have e : capr.2 = kvr.2.2 := by rw [← hcap]
      rw [e]
      simp only [List.length_cons] at this
      omega

theorem scanAux_nil (n : Nat) : scanAux n [] = [] := by
  cases n <;> rfl

theorem scanAux_congr :
    ∀ (n m : Nat) (s : Chars), s.length ≤ n → s.length ≤ m →
      scanAux n s = scanAux m s := by
  intro n
  induction n with
  | zero =>
    intro m s hn _
    have : s = [] := List.length_eq_zero.mp (Nat.le_zero.mp hn)
    subst this
    rw [scanAux_nil, scanAux_nil]
  | succ k ih =>
    intro m s hn hm
    cases s with
    | nil => rw [scanAux_nil, scanAux_nil]
    | cons ch cs =>
      cases m with
      | zero => simp at hm
      | succ m' =>
        simp only [List.length_cons] at hn hm
        simp only [scanAux]
        cases hma : matchAt (ch :: cs) with
        | some capr =>
          obtain ⟨cap, rest⟩ := capr
          have hlt := matchAt_rest_length hma
          simp only [List.length_cons] at hlt
          show cap :: scanAux k rest = cap :: scanAux m' rest
          rw [ih m' rest (by omega) (by omega)]
        | none =>
          show scanAux k cs = scanAux m' cs
          exact ih m' cs (by omega) (by omega)

theorem scan_match {s rest : Chars} {cap : Capture}
    (h : matchAt s = some (cap, rest)) : scan s = cap :: scan rest := by
  have hlt := matchAt_rest_length h
  cases s with
  | nil => exact absurd h (by simp [matchAt, matchAtCore])
  | cons ch cs =>
    simp only [List.length_cons] at hlt
    unfold scan
    simp only [List.length_cons, scanAux, h]
    exact congrArg (cap :: ·) (scanAux_congr cs.length rest.length rest (by omega) le_rfl)

theorem scan_skip {ch : Char} {cs : Chars} (h : matchAt (ch :: cs) = none) :
    scan (ch :: cs) = scan cs := by
  unfold scan
  simp only [List.length_cons, scanAux, h]

/-! ## Shape lemmas: how the scanner behaves on well-formed headers -/

theorem matchPair_cons_space (s : Chars) : matchPair (' ' :: s) = matchPair s := by
  unfold matchPair
  rw [List.dropWhile_cons_of_pos (by decide : isSpaceChar ' ' = true)]

theorem matchAt_cons_space (s : Chars) : matchAt (' ' :: s) = matchAt s := by
  unfold matchAt
  rw [List.dropWhile_cons_of_pos (by decide : isSpaceChar ' ' = true)]

theorem matchAt_cons_comma (s : Chars) : matchAt (',' :: s) = none := by
  have hp : matchPair (',' :: s) = none := by
    simp only [matchPair,
      List.dropWhile_cons_of_neg (by decide : ¬isSpaceChar ',' = true),
      List.takeWhile_cons_of_neg (by decide : ¬isLowerAlpha ',' = true),
      List.isEmpty_nil, if_true]
  unfold matchAt
  rw [List.dropWhile_cons_of_neg (by decide : ¬isSpaceChar ',' = true)]
  unfold matchAtCore
  rw [if_neg (by decide : ¬isUpperAlpha ',' = true), hp]
  rfl

/-- The mandatory part of the regex on a canonical `key="value"` segment:
the key is a nonempty lowercase run, the value nonempty and quote-free,
and the trailing `\s*` eats into the remainder `t`. -/
theorem matchPair_pair {k v : Chars} (t : Chars) (hk : k ≠ [])
    (hkl : ∀ x ∈ k, isLowerAlpha x = true) (hv : v ≠ [])
    (hvq : ∀ x ∈ v, (x != '"') = true) :
    matchPair (k ++ '=' :: '"' :: (v ++ '"' :: t)) =
      some (k, v, t.dropWhile isSpaceChar) := by
  obtain ⟨a, k', rfl⟩ : ∃ a k', k = a :: k' := by
    cases k with
    | nil => exact absurd rfl hk
    | cons a k' => exact ⟨a, k', rfl⟩
  obtain ⟨b, v', rfl⟩ : ∃ b v', v = b :: v' := by
    cases v with
    | nil => exact absurd rfl hv
    | cons b v' => exact ⟨b, v', rfl⟩
  have ha : isLowerAlpha a = true := hkl a (by simp)
  have h1 : ((a :: k') ++ '=' :: '"' :: ((b :: v') ++ '"' :: t)).dropWhile
      isSpaceChar = (a :: k') ++ '=' :: '"' :: ((b :: v') ++ '"' :: t) := by
    rw [List.cons_append,
      List.dropWhile_cons_of_neg (by simp [lower_not_space ha]),
      ← List.cons_append]
  have h2 : ((a :: k') ++ '=' :: '"' :: ((b :: v') ++ '"' :: t)).takeWhile
      isLowerAlpha = a :: k' := by
    rw [List.takeWhile_append_of_pos hkl,
      List.takeWhile_cons_of_neg (by decide : ¬isLowerAlpha '=' = true),
      List.append_nil]
  have h3 : ((a :: k') ++ '=' :: '"' :: ((b :: v') ++ '"' :: t)).dropWhile
      isLowerAlpha = '=' :: '"' :: ((b :: v') ++ '"' :: t) := by
    rw [List.dropWhile_append_of_pos hkl,
      List.dropWhile_cons_of_neg (by decide : ¬isLowerAlpha '=' = true)]
  have h4 : ('"' :: ((b :: v') ++ '"' :: t)).dropWhile isSpaceChar =
      '"' :: ((b :: v') ++ '"' :: t) :=
    List.dropWhile_cons_of_neg (by decide : ¬isSpaceChar '"' = true)
  have h5 : List.takeWhile (fun ch => ch != '"') ('"' :: t) = ([] : Chars) := by
    rw [List.takeWhile_cons_of_neg]
    decide
  have h5d : List.dropWhile (fun ch => ch != '"') ('"' :: t) = '"' :: t := by
    rw [List.dropWhile_cons_of_neg]
    decide
  have h6 : ((b :: v') ++ '"' :: t).takeWhile (fun ch => ch != '"') =
      b :: v' := by
    rw [List.takeWhile_append_of_pos hvq, h5, List.append_nil]
  have h7 : ((b :: v') ++ '"' :: t).dropWhile (fun ch => ch != '"') =
      '"' :: t := by
    rw [List.dropWhile_append_of_pos hvq, h5d]
  simp only [matchPair, h1, h2, h3, h4, h6, h7, List.isEmpty_cons,
    Bool.false_eq_true, if_false,
    List.dropWhile_cons_of_neg (by decide : ¬isSpaceChar '=' = true)]

theorem dropWhile_eq_self_of_takeWhile_nil {p : Char → Bool} {l : Chars}
    (h : l.takeWhile p = []) : l.dropWhile p = l := by
  cases l with
  | nil => rfl
  | cons x xs =>
    cases hx : p x with
    | true =>
      rw [List.takeWhile_cons_of_pos hx] at h
      exact absurd h (by simp)
    | false => exact List.dropWhile_cons_of_neg (by simp [hx])

/-- A match that starts with a lowercase character can only be the
method-less `key="value"` form. -/
theorem matchAt_pair {k v : Chars} (t : Chars) (hk : k ≠ [])
    (hkl : ∀ x ∈ k, isLowerAlpha x = true) (hv : v ≠ [])
    (hvq : ∀ x ∈ v, (x != '"') = true) :
    matchAt (k ++ '=' :: '"' :: (v ++ '"' :: t)) =
      some (⟨none, k, v⟩, t.dropWhile isSpaceChar) := by
  obtain ⟨a, k', rfl⟩ : ∃ a k', k = a :: k' := by
    cases k with
    | nil => exact absurd rfl hk
    | cons a k' => exact ⟨a, k', rfl⟩
  have ha : isLowerAlpha a = true := hkl a (by simp)
  unfold matchAt
  rw [List.cons_append,
    List.dropWhile_cons_of_neg (by simp [lower_not_space ha])]
  simp only [matchAtCore]
  rw [if_neg (by simp [lower_not_upper ha])]
  rw [← List.cons_append, matchPair_pair t hk hkl hv hvq]
  rfl

/-- When the whole lowercase run after the uppercase character is taken as
the method, the first backtracking attempt succeeds. -/
theorem tryMethodAux_full {rest : Chars} {kvr : Chars × Chars × Chars}
    (ch : Char) (low : Chars) (hlow : low ≠ [])
    (h : matchPair rest = some kvr) :
    tryMethodAux ch low rest low.length =
      some (⟨some (ch :: low), kvr.1, kvr.2.1⟩, kvr.2.2) := by
  obtain ⟨m, hm⟩ : ∃ m, low.length = m + 1 := by
    cases low with
    | nil => exact absurd rfl hlow
    | cons x xs => exact ⟨xs.length, rfl⟩
  rw [hm]
  simp only [tryMethodAux]
  rw [← hm, List.drop_length, List.nil_append, h, List.take_length]

/-- A match headed by an uppercase character followed by a lowercase run
and a `key="value"` segment captures the method group. -/
theorem matchAt_method {low P : Chars} {kvr : Chars × Chars × Chars}
    (ch : Char) (hup : isUpperAlpha ch = true) (hlow : low ≠ [])
    (hlowall : ∀ x ∈ low, isLowerAlpha x = true)
    (hP : P.takeWhile isLowerAlpha = [])
    (h : matchPair P = some kvr) :
    matchAt (ch :: (low ++ P)) =
      some (⟨some (ch :: low), kvr.1, kvr.2.1⟩, kvr.2.2) := by
  unfold matchAt
  rw [List.dropWhile_cons_of_neg (by simp [upper_not_space hup])]
  simp only [matchAtCore]
  rw [if_pos hup, List.takeWhile_append_of_pos hlowall, hP, List.append_nil,
    List.dropWhile_append_of_pos hlowall, dropWhile_eq_self_of_takeWhile_nil hP,
    tryMethodAux_full ch low hlow h]

theorem scan_comma_pair {k v : Chars} (t : Chars) (hk : k ≠ [])
    (hkl : ∀ x ∈ k, isLowerAlpha x = true) (hv : v ≠ [])
    (hvq : ∀ x ∈ v, (x != '"') = true) :
    scan (',' :: ' ' :: renderPair k v t) =
      ⟨none, k, v⟩ :: scan (t.dropWhile isSpaceChar) := by
  rw [scan_skip (matchAt_cons_comma _)]
  have h : matchAt (' ' :: renderPair k v t) =
      some (⟨none, k, v⟩, t.dropWhile isSpaceChar) := by
    rw [matchAt_cons_space]
    exact matchAt_pair t hk hkl hv hvq
  exact scan_match h

theorem scan_method_header {low k v : Chars} (ch : Char) (t : Chars)
    (hup : isUpperAlpha ch = true) (hlow : low ≠ [])
    (hlowall : ∀ x ∈ low, isLowerAlpha x = true) (hk : k ≠ [])
    (hkl : ∀ x ∈ k, isLowerAlpha x = true) (hv : v ≠ [])
    (hvq : ∀ x ∈ v, (x != '"') = true) :
    scan (ch :: (low ++ (' ' :: renderPair k v t))) =
      ⟨some (ch :: low), k, v⟩ :: scan (t.dropWhile isSpaceChar) := by
  have hpair : matchPair (' ' :: renderPair k v t) =
      some (k, v, t.dropWhile isSpaceChar) := by
    rw [matchPair_cons_space]
    exact matchPair_pair t hk hkl hv hvq
  have hP : (' ' :: renderPair k v t).takeWhile isLowerAlpha = [] :=
    List.takeWhile_cons_of_neg (by decide)
  exact scan_match (matchAt_method ch hup hlow hlowall hP hpair)

theorem scan_basicHeader (r : Chars) (hr : r ≠ [])
    (hrq : ∀ x ∈ r, (x != '"') = true) :
    scan (basicHeader r) = [⟨some "Basic".data, "realm".data, r⟩] := by
  unfold basicHeader
  rw [scan_method_header 'B' _ (by decide) (by decide) (by decide) (by decide)
    (by decide) hr hrq]
  rfl

theorem scan_bearerHeader (r s c : Chars) (hr : r ≠ [])
    (hrq : ∀ x ∈ r, (x != '"') = true) (hs : s ≠ [])
    (hsq : ∀ x ∈ s, (x != '"') = true) (hc : c ≠ [])
    (hcq : ∀ x ∈ c, (x != '"') = true) :
    scan (bearerHeader r s c) =
      [⟨some "Bearer".data, "realm".data, r⟩,
       ⟨none, "service".data, s⟩,
       ⟨none, "scope".data, c⟩] := by
  unfold bearerHeader
  rw [scan_method_header 'B' _ (by decide) (by decide) (by decide) (by decide)
    (by decide) hr hrq,
    List.dropWhile_cons_of_neg (by decide : ¬isSpaceChar ',' = true),
    scan_comma_pair _ (by decide) (by decide) hs hsq,
    List.dropWhile_cons_of_neg (by decide : ¬isSpaceChar ',' = true),
    scan_comma_pair _ (by decide) (by decide) hc hcq]
  rfl

theorem scan_bearerDupHeader (va vb : Chars) (ha : va ≠ [])
    (haq : ∀ x ∈ va, (x != '"') = true) (hb : vb ≠ [])
    (hbq : ∀ x ∈ vb, (x != '"') = true) :
    scan (bearerDupHeader va vb) =
      [⟨some "Bearer".data, "realm".data, va⟩,
       ⟨none, "realm".data, vb⟩] := by
  unfold bearerDupHeader
  rw [scan_method_header 'B' _ (by decide) (by decide) (by decide) (by decide)
    (by decide) ha haq,
    List.dropWhile_cons_of_neg (by decide : ¬isSpaceChar ',' = true),
    scan_comma_pair _ (by decide) (by decide) hb hbq]
  rfl

theorem parse_basicHeader (r : Chars) (hr : r ≠ [])
    (hrq : ∀ x ∈ r, (x != '"') = true) :
    from_www_authentication_header (basicHeader r) =
      .ok (.basic ⟨r⟩) := by
  simp only [from_www_authentication_header, scan_basicHeader r hr hrq]
  rfl

theorem parse_bearerHeader (r s c : Chars) (hr : r ≠ [])
    (hrq : ∀ x ∈ r, (x != '"') = true) (hs : s ≠ [])
    (hsq : ∀ x ∈ s, (x != '"') = true) (hc : c ≠ [])
    (hcq : ∀ x ∈ c, (x != '"') = true) :
    from_www_authentication_header (bearerHeader r s c) =
      .ok (.bearer ⟨r, some s, some c⟩) := by
  simp only [from_www_authentication_header,
    scan_bearerHeader r s c hr hrq hs hsq hc hcq]
  rfl

theorem parse_bearerDupHeader (va vb : Chars) (ha : va ≠ [])
    (haq : ∀ x ∈ va, (x != '"') = true) (hb : vb ≠ [])
    (hbq : ∀ x ∈ vb, (x != '"') = true) :
    from_www_authentication_header (bearerDupHeader va vb) =
      .error (.serde (.duplicateField "realm")) := by
  simp only [from_www_authentication_header,
    scan_bearerDupHeader va vb ha haq hb hbq]
  rfl

/-! ## Masking lemmas -/

theorem splitAtByte_ascii {l : Chars} (h : ∀ ch ∈ l, ch.utf8Size = 1) :
    ∀ n : Nat, splitAtByte l n =
      if n ≤ l.length then some (l.take n, l.drop n) else none := by
  induction l with
  | nil =>
    intro n
    cases n with
    | zero => rfl
    | succ k => simp [splitAtByte]
  | cons ch cs ih =>
    intro n
    cases n with
    | zero => rfl
    | succ k =>
      have hch : ch.utf8Size = 1 := h ch (by simp)
      have ihs := ih (fun x hx => h x (List.mem_cons_of_mem _ hx)) k
      rw [splitAtByte, hch, if_pos (by omega : 1 ≤ k + 1)]
      rw [show k + 1 - 1 = k from rfl, ihs]
      by_cases hk : k ≤ cs.length
      · rw [if_pos hk, if_pos (by simpa using Nat.succ_le_succ hk)]
        rfl
      · rw [if_neg hk, if_neg (by simp; omega)]

/-! ## Claim theorems -/

/-- Claim C1: the claim states that every subsequent scope is separated
from the previous one by `&`.  The code's fold uses `if i > 1` instead of
`if i >= 1`, so the separator between the first and the second scope is
omitted: with realm `r`, no service and scopes `["a", "b"]` the code
yields `r?scope=ascope=b`, not `r?scope=a&scope=b`.  With a single scope
(the spec's own example) the construction matches the claim, and from the
third scope on the `&` is present again. -/
theorem auth_ep_scope_separator_bug :
    auth_ep ⟨"https://auth.example/token".data, none, none⟩
        ["repo:a:pull".data] =
      "https://auth.example/token?scope=repo:a:pull".data ∧
    auth_ep ⟨"r".data, none, none⟩ ["a".data, "b".data] =
      "r?scope=ascope=b".data ∧
    auth_ep ⟨"r".data, none, none⟩ ["a".data, "b".data] ≠
      "r?scope=a&scope=b".data ∧
    auth_ep ⟨"r".data, some "S".data, none⟩ ["a".data, "b".data, "c".data] =
      "r?service=S&scope=ascope=b&scope=c".data :=
  ⟨rfl, rfl, by decide, rfl⟩

/-- Claim C10: a header consisting of the bare scheme token `Bearer` with
no `key="value"` pair produces no regex captures at all, so parsing fails
with `InvalidValue` — not with `FieldMethodMissing` and not with
success. -/
theorem bare_method_header_invalid_value :
    from_www_authentication_header "Bearer".data =
      .error (.headerParse .invalidValue) := by decide

/-- Claim C3: if the `token` field is present its value becomes the
credential token, even when `access_token` is also present and differs;
if `token` is absent but `access_token` is present, `access_token` is
used; if neither is present the conversion fails with the
missing-token-field error; `expires_in`, `issued_at` and `refresh_token`
are carried over unchanged. -/
theorem bearer_token_field_fallback (v : BearerIntermediate) :
    (∀ t, v.token = some t →
      bearerAuthTryFrom v =
        .ok ⟨t, v.expires_in, v.issued_at, v.refresh_token⟩) ∧
    (v.token = none → ∀ t, v.access_token = some t →
      bearerAuthTryFrom v =
        .ok ⟨t, v.expires_in, v.issued_at, v.refresh_token⟩) ∧
    (v.token = none → v.access_token = none →
      bearerAuthTryFrom v = .error "Missing 'token' field") := by
  refine ⟨?_, ?_, ?_⟩
  · intro t ht
    simp [bearerAuthTryFrom, Option.or, ht]
  · intro h0 t ht
    simp [bearerAuthTryFrom, Option.or, h0, ht]
  · intro h0 h1
    simp [bearerAuthTryFrom, Option.or, h0, h1]

/-- Claim C3 witness: a body carrying both `token` and a differing
`access_token` resolves to the `token` value. -/
theorem bearer_token_field_fallback_witness :
    bearerAuthTryFrom ⟨some "x".data, some "y".data, none, none, none⟩ =
      .ok ⟨"x".data, none, none, none⟩ :=
  (bearer_token_field_fallback ⟨some "x".data, some "y".data, none, none, none⟩).1
    "x".data rfl

/-- Claim C4: the validation step of the bearer handshake returns
`InvalidAuthToken` exactly when the resolved token is the empty string or
the literal `"unauthenticated"`, whatever the other response fields; and
every credential it lets through is returned unchanged with a token that
is nonempty and not `"unauthenticated"`. -/
theorem invalid_auth_token_iff (b : BearerAuth) :
    ((∃ s, processToken b = .err (.invalidAuthToken s)) ↔
      (b.token = [] ∨ b.token = "unauthenticated".data)) ∧
    (∀ b' m, processToken b = .ok b' m →
      b' = b ∧ b.token ≠ [] ∧ b.token ≠ "unauthenticated".data) := by
  by_cases hbad : b.token = "unauthenticated".data ∨ b.token = []
  · constructor
    · constructor
      · intro _
        exact hbad.symm
      · intro _
        exact ⟨b.token, by rw [processToken, if_pos hbad]⟩
    · intro b' m h
      rw [processToken, if_pos hbad] at h
      exact absurd h (by simp)
  · have hne := hbad
    push_neg at hne
    constructor
    · constructor
      · intro ⟨s, hs⟩
        rw [processToken, if_neg hbad] at hs
        revert hs
        cases maskToken b.token <;> simp
      · intro hor
        exact absurd hor.symm hbad
    · intro b' m h
      rw [processToken, if_neg hbad] at h
      refine ⟨?_, hne.2, hne.1⟩
      revert h
      cases maskToken b.token with
      | some masked =>
        intro h
        cases h
        rfl
      | none =>
        intro h
        exact absurd h (by simp)

/-- Claim C4 witness: at the empty token the validation step rejects with
`InvalidAuthToken`, and the accepted-token direction holds at a concrete
accepted token. -/
theorem invalid_auth_token_iff_witness :
    (∃ s, processToken ⟨[], none, none, none⟩ = .err (.invalidAuthToken s)) ∧
    (⟨"abc".data, none, none, none⟩ : BearerAuth) =
        ⟨"abc".data, none, none, none⟩ ∧
      ("abc".data : Chars) ≠ [] ∧
      ("abc".data : Chars) ≠ "unauthenticated".data :=
  ⟨(invalid_auth_token_iff ⟨[], none, none, none⟩).1.mpr (Or.inl rfl),
   (invalid_auth_token_iff ⟨"abc".data, none, none, none⟩).2
     ⟨"abc".data, none, none, none⟩ "a*c".data (by decide)⟩

/-- Claim C5 counterexample: for the one-character token `"a"` the claim
asserts a mask span of length 0 (nothing hidden), but the code computes
`mask_start = 0`, `mask_end = 1`, a span of length 1, and masks the
whole token to `"*"`. -/
theorem mask_single_char_token_counterexample :
    processToken ⟨['a'], none, none, none⟩ =
      .ok ⟨['a'], none, none, none⟩ ['*'] ∧
    max (1 - 1) 1 - min 1 (1 - 1) = 1 := by
  exact ⟨by decide, by decide⟩

/-- Claim C5 (amended): for every validated ASCII token of length L the
masked form replaces the span from `mask_start = min(1, L-1)` to
`mask_end = max(L-1, 1)` with that many `*`; for L ≥ 2 exactly the first
and last characters remain visible, while for L = 1 the span has length
1 and the single character itself is masked.  The unmasked token remains
in the returned credential. -/
theorem mask_ascii_token_shape (b : BearerAuth) (h1 : b.token ≠ [])
    (h2 : b.token ≠ "unauthenticated".data)
    (hascii : ∀ ch ∈ b.token, ch.utf8Size = 1) :
    processToken b = .ok b
      (if b.token.length = 1 then ['*']
       else b.token.take 1 ++ List.replicate (b.token.length - 2) '*' ++
         b.token.drop (b.token.length - 1)) := by
  have hbad : ¬(b.token = "unauthenticated".data ∨ b.token = []) := by
    push_neg
    exact ⟨h2, h1⟩
  have hL : 1 ≤ b.token.length := by
    cases hb : b.token with
    | nil => exact absurd hb h1
    | cons x xs => simp [hb]
  have hmask : maskToken b.token = some
      (if b.token.length = 1 then ['*']
       else b.token.take 1 ++ List.replicate (b.token.length - 2) '*' ++
         b.token.drop (b.token.length - 1)) := by
    by_cases hL1 : b.token.length = 1
    · rw [if_pos hL1]
      have e1 : min 1 (b.token.length - 1) = 0 := by omega
      have e2 : max (b.token.length - 1) 1 = 1 := by omega
      have hs0 : splitAtByte b.token 0 = some ([], b.token) := by
        cases b.token <;> rfl
      have hs1 : splitAtByte b.token 1 =
          some (b.token.take 1, b.token.drop 1) := by
        rw [splitAtByte_ascii hascii]
        rw [if_pos (by omega)]
      have hd : b.token.drop 1 = [] := by
        rw [← hL1]
        exact List.drop_length _
      simp only [maskToken, e1, e2, replaceRange, hs0, Nat.sub_zero, hs1, hd]
      simp
    · rw [if_neg hL1]
      have hL2 : 2 ≤ b.token.length := by omega
      have e1 : min 1 (b.token.length - 1) = 1 := by omega
      have e2 : max (b.token.length - 1) 1 = b.token.length - 1 := by omega
      have hs1 : splitAtByte b.token 1 =
          some (b.token.take 1, b.token.drop 1) := by
        rw [splitAtByte_ascii hascii]
        rw [if_pos (by omega)]
      have hdascii : ∀ ch ∈ b.token.drop 1, ch.utf8Size = 1 :=
        fun ch hc => hascii ch (List.drop_subset _ _ hc)
      have e3 : b.token.length - 1 - 1 = b.token.length - 2 := by omega
      have hs2 : splitAtByte (b.token.drop 1) (b.token.length - 2) =
          some ((b.token.drop 1).take (b.token.length - 2),
            (b.token.drop 1).drop (b.token.length - 2)) := by
        rw [splitAtByte_ascii hdascii]
        rw [if_pos (by rw [List.length_drop]; omega)]
      have e4 : (b.token.drop 1).drop (b.token.length - 2) =
          b.token.drop (b.token.length - 1) := by
        rw [List.drop_drop]
        congr 1
        omega
      have e5 : (b.token.drop 1).take (b.token.length - 2) =
          (b.token.drop 1).take (b.token.length - 2) := rfl
      simp only [maskToken, e1, e2, replaceRange, hs1, e3, hs2, e4]
  rw [processToken, if_neg hbad, hmask]

/-- Claim C5 witness: for the token `"abcdef"` exactly the first and last
characters remain visible and four characters are replaced by `*`; the
credential keeps the unmasked token. -/
theorem mask_ascii_token_shape_witness :
    processToken ⟨"abcdef".data, none, none, none⟩ =
      .ok ⟨"abcdef".data, none, none, none⟩ "a****f".data :=
  (mask_ascii_token_shape ⟨"abcdef".data, none, none, none⟩ (by decide)
    (by decide) (by decide)).trans (by decide)

/-- Claim C6: the claim states the masking step is total on every
validated token, including multi-byte ones, and preserves the character
count.  The code computes the range from `chars().count()` but indexes by
bytes: on the validated token `"éa"` the range endpoint 1 falls inside
the two-byte character `é`, so `replace_range` panics; and on `"héllo"`
(where the byte range happens to hit boundaries) the masked string has 6
characters while the token has 5. -/
theorem mask_multibyte_token_panics :
    processToken ⟨"éa".data, none, none, none⟩ = .panicked ∧
    processToken ⟨"héllo".data, none, none, none⟩ =
      .ok ⟨"héllo".data, none, none, none⟩ "h***lo".data ∧
    "h***lo".data.length = 6 ∧ "héllo".data.length = 5 := by
  exact ⟨by decide, by decide, by decide, by decide⟩

/-- Claim C7 counterexample: the header `Bearer realm="a", realm="b"` is
an otherwise-valid challenge with a repeated known key; the claim says it
still parses successfully, but the deserializer rejects the duplicated
field. -/
theorem duplicate_known_key_rejected :
    from_www_authentication_header (bearerDupHeader ['a'] ['b']) =
      .error (.serde (.duplicateField "realm")) := by decide

/-- Claim C7 (amended): the scanner extracts every `key="value"` pair
regardless of repetition, but a known key repeated within the matched
challenge shape makes deserialization fail with a duplicate-field error;
repetition of an unknown key is not a parse failure. -/
theorem duplicate_key_handling (va vb : Chars) (ha : va ≠ [])
    (haq : ∀ x ∈ va, x ≠ '"') (hb : vb ≠ []) (hbq : ∀ x ∈ vb, x ≠ '"') :
    scan (bearerDupHeader va vb) =
      [⟨some "Bearer".data, "realm".data, va⟩, ⟨none, "realm".data, vb⟩] ∧
    from_www_authentication_header (bearerDupHeader va vb) =
      .error (.serde (.duplicateField "realm")) ∧
    from_www_authentication_header (bearerUnknownDupHeader va vb) =
      .ok (.bearer ⟨va, none, none⟩) := by
  have haq' : ∀ x ∈ va, (x != '"') = true := fun x hx => bne_iff_ne.mpr (haq x hx)
  have hbq' : ∀ x ∈ vb, (x != '"') = true := fun x hx => bne_iff_ne.mpr (hbq x hx)
  refine ⟨scan_bearerDupHeader va vb ha haq' hb hbq',
    parse_bearerDupHeader va vb ha haq' hb hbq', ?_⟩
  have hscan : scan (bearerUnknownDupHeader va vb) =
      [⟨some "Bearer".data, "realm".data, va⟩,
       ⟨none, "foo".data, vb⟩, ⟨none, "foo".data, vb⟩] := by
    unfold bearerUnknownDupHeader
    rw [scan_method_header 'B' _ (by decide) (by decide) (by decide) (by decide)
      (by decide) ha haq',
      List.dropWhile_cons_of_neg (by decide : ¬isSpaceChar ',' = true),
      scan_comma_pair _ (by decide) (by decide) hb hbq',
      List.dropWhile_cons_of_neg (by decide : ¬isSpaceChar ',' = true),
      scan_comma_pair _ (by decide) (by decide) hb hbq']
    rfl
  simp only [from_www_authentication_header, hscan]
  rfl

/-- Claim C7 witness: concrete instances of the amended claim. -/
theorem duplicate_key_handling_witness :
    from_www_authentication_header (bearerDupHeader ['x'] ['y']) =
      .error (.serde (.duplicateField "realm")) ∧
    from_www_authentication_header (bearerUnknownDupHeader ['x'] ['y']) =
      .ok (.bearer ⟨['x'], none, none⟩) :=
  ⟨(duplicate_key_handling ['x'] ['y'] (by decide) (by decide) (by decide)
      (by decide)).2.1,
   (duplicate_key_handling ['x'] ['y'] (by decide) (by decide) (by decide)
      (by decide)).2.2⟩

/-- Claim C2: for well-formed challenge headers of the two shapes the
spec names — `Basic realm="R"` and
`Bearer realm="R", service="S", scope="C"` with each value nonempty and
quote-free — parsing succeeds and reproduces every known key's value
verbatim. -/
theorem www_authenticate_header_roundtrip (r s c : Chars)
    (hr : r ≠ []) (hrq : ∀ x ∈ r, x ≠ '"')
    (hs : s ≠ []) (hsq : ∀ x ∈ s, x ≠ '"')
    (hc : c ≠ []) (hcq : ∀ x ∈ c, x ≠ '"') :
    from_www_authentication_header (basicHeader r) = .ok (.basic ⟨r⟩) ∧
    from_www_authentication_header (bearerHeader r s c) =
      .ok (.bearer ⟨r, some s, some c⟩) := by
  have hrq' : ∀ x ∈ r, (x != '"') = true := fun x hx => bne_iff_ne.mpr (hrq x hx)
  have hsq' : ∀ x ∈ s, (x != '"') = true := fun x hx => bne_iff_ne.mpr (hsq x hx)
  have hcq' : ∀ x ∈ c, (x != '"') = true := fun x hx => bne_iff_ne.mpr (hcq x hx)
  exact ⟨parse_basicHeader r hr hrq',
    parse_bearerHeader r s c hr hrq' hs hsq' hc hcq'⟩

/-- Claim C2 witness: the spec's two concrete headers,
`Basic realm="Registry realm"` and
`Bearer realm="R", service="S", scope="repository:x:pull,push"`. -/
theorem www_authenticate_header_roundtrip_witness :
    from_www_authentication_header (basicHeader "Registry realm".data) =
      .ok (.basic ⟨"Registry realm".data⟩) ∧
    from_www_authentication_header
        (bearerHeader "R".data "S".data "repository:x:pull,push".data) =
      .ok (.bearer ⟨"R".data, some "S".data,
        some "repository:x:pull,push".data⟩) :=
  ⟨(www_authenticate_header_roundtrip "Registry realm".data "S".data "C".data
      (by decide) (by decide) (by decide) (by decide) (by decide) (by decide)).1,
   (www_authenticate_header_roundtrip "R".data "S".data
      "repository:x:pull,push".data (by decide) (by decide) (by decide)
      (by decide) (by decide) (by decide)).2⟩

/-- Claim C8: `is_auth` classifies purely by the HTTP status of the
discovery GET: `.ok true` exactly at 200, `.ok false` exactly at 401, and
`UnexpectedHttpStatus` at every other status, whatever the response body,
the response headers or the client's credential state. -/
theorem is_auth_status_classification {ρ : Type} (c : Client ρ)
    (status : Nat) (body : Chars) (headers : List (Chars × Chars)) :
    (is_auth c status body headers = .ok true ↔ status = 200) ∧
    (is_auth c status body headers = .ok false ↔ status = 401) ∧
    (status ≠ 200 → status ≠ 401 →
      is_auth c status body headers =
        .error (.unexpectedHttpStatus status)) ∧
    (∀ (c' : Client ρ) (body' : Chars) (headers' : List (Chars × Chars)),
      is_auth c status body headers = is_auth c' status body' headers') := by
  by_cases h200 : status = 200
  · subst h200
    refine ⟨by simp [is_auth], by simp [is_auth], by simp, fun _ _ _ => rfl⟩
  · by_cases h401 : status = 401
    · subst h401
      refine ⟨by simp [is_auth], by simp [is_auth], by simp, fun _ _ _ => rfl⟩
    · refine ⟨by simp [is_auth, h200, h401], by simp [is_auth, h200, h401],
        fun _ _ => by simp [is_auth, h200, h401], fun _ _ _ => rfl⟩

/-- Claim C8 witness: a status that is neither 200 nor 401 yields the
`UnexpectedHttpStatus` error. -/
theorem is_auth_status_classification_witness :
    is_auth (⟨none, none, [], ()⟩ : Client Unit) 500 [] [] =
      .error (.unexpectedHttpStatus 500) :=
  (is_auth_status_classification (⟨none, none, [], ()⟩ : Client Unit) 500
    [] []).2.2.1 (by decide) (by decide)

/-- Claim C9: `authenticate` consults the network only through the probe
client, whose `auth` field is stripped to `None`; and on success it
returns the original client with only the `auth` field replaced by the
resolved credential — `credentials`, `base_url` and every other field are
unchanged. -/
theorem authenticate_probe_strip_and_frame {ρ : Type}
    (f f' : Client ρ → Except Error Chars)
    (hs hs' : Client ρ → Option (Chars × Chars) →
      WwwAuthenticateHeaderContentBearer → Except Error BearerAuth)
    (c c' : Client ρ)
    (hf : f { c with auth := none } = f' { c with auth := none })
    (hhs : ∀ cr b, hs { c with auth := none } cr b =
      hs' { c with auth := none } cr b)
    (hok : authenticate f hs c = .ok c') :
    authenticate f' hs' c = .ok c' ∧
    ({ c with auth := none } : Client ρ).auth = none ∧
    c'.credentials = c.credentials ∧ c'.base_url = c.base_url ∧
    c'.rest = c.rest ∧ ∃ a, c'.auth = some a := by
  simp only [authenticate] at hok ⊢
  split at hok
  · exact absurd hok (by simp)
  next hdr heq =>
    rw [hf] at heq
    split at hok
    · exact absurd hok (by simp)
    next b0 heq2 =>
      split at hok
      next user password heqc =>
        injection hok with hX
        subst hX
        refine ⟨?_, ?_, ?_, ?_, ?_, ?_⟩
        · simp only [heq]
          try simp only [heq2]
          try simp only [heqc]
        all_goals first | trivial | exact ⟨_, rfl⟩
      · exact absurd hok (by simp)
    next b heq2 =>
      split at hok
      · exact absurd hok (by simp)
      next ba heqh =>
        rw [hhs] at heqh
        injection hok with hX
        subst hX
        refine ⟨?_, ?_, ?_, ?_, ?_, ?_⟩
        · simp only [heq]
          try simp only [heq2]
          try simp only [heqh]
        all_goals first | trivial | exact ⟨_, rfl⟩

/-- Claim C9 witness: a concrete Basic-challenge run in which the client
carries stale auth and credentials; the returned client keeps every field
but `auth`. -/
theorem authenticate_probe_strip_and_frame_witness :
    authenticate (fun _ => Except.ok (basicHeader ['r']))
        (fun _ _ _ => Except.error Error.transport)
        (⟨some (Auth.basic ⟨['s'], none⟩), some (['u'], ['p']), ['h'], ()⟩ :
          Client Unit) =
      .ok ⟨some (Auth.basic ⟨['u'], some ['p']⟩), some (['u'], ['p']),
        ['h'], ()⟩ ∧
    ({ (⟨some (Auth.basic ⟨['s'], none⟩), some (['u'], ['p']), ['h'], ()⟩ :
        Client Unit) with auth := none }).auth = none ∧
    (some (['u'], ['p']) : Option (Chars × Chars)) = some (['u'], ['p']) ∧
    (['h'] : Chars) = ['h'] ∧ () = () ∧
    ∃ a, (some (Auth.basic ⟨['u'], some ['p']⟩) : Option Auth) = some a := by
  exact authenticate_probe_strip_and_frame
    (fun _ => Except.ok (basicHeader ['r']))
    (fun _ => Except.ok (basicHeader ['r']))
    (fun _ _ _ => Except.error Error.transport)
    (fun _ _ _ => Except.error Error.transport)
    ⟨some (Auth.basic ⟨['s'], none⟩), some (['u'], ['p']), ['h'], ()⟩
    ⟨some (Auth.basic ⟨['u'], some ['p']⟩), some (['u'], ['p']), ['h'], ()⟩
    rfl (fun _ _ => rfl) (by decide)
